import Mathlib

/-!
# Softmax regression (`clase4/backend/algorithms/chivo.go`)

A shallow embedding of the multinomial classifier: the matrix operations of
`gonum/mat` that the code calls, the numerically stable row softmax, the
forward pass, the batch gradient-descent loop of `Fit`, and the inference
surface (`PredictProba`, `Predict`, `Accuracy`).

Conventions of the embedding.

* `float64` is an arbitrary linearly ordered field `α` together with a
  function `exp : α → α`; the theorems that need analytic facts about the
  exponential are stated for `ℝ` and `Real.exp`. Rounding, infinities and
  NaN are outside the model.
* Go `int` has 64 bits. Labels and `NIter` are `Int`; the one place where the
  program computes with a label, `yi + 1` in `Fit`, wraps around at `2^63`
  (`wrapInt64`). Dimensions and loop indices are `Nat`. Memory is not
  modelled: `make` and the allocations of `gonum/mat` always succeed.
* A call that does not return normally ends either by `log.Fatal` or by a
  run-time panic (of `gonum/mat` or of an index check); both are values of
  `Failure`. Functions that only read the model return `Except Failure _`;
  `Fit`, which mutates the model in place, returns the model state at the
  moment the call ended together with the way it ended.
* The pseudo-random draws of `rand.NormFloat64` are an input `rnd : Nat → α`
  (draw number `i` is `rnd i`).
-/

set_option autoImplicit false

namespace Chivo

/-- The two ways a call can end abnormally: `log.Fatal` (the process exits)
or a run-time panic. -/
inductive Failure where
  | fatal (msg : String)
  | panic (msg : String)
  deriving DecidableEq, Repr

/-- The matrix type `mat.Dense` of gonum: dimensions and entries. `At i j` is
meaningful for `i < rows` and `j < cols` only; every reader in the program
stays inside these bounds. The zero value (`var M mat.Dense`) is `0 × 0`. -/
structure Dense (α : Type) where
  rows : Nat
  cols : Nat
  At : Nat → Nat → α

/-- The vector type `mat.VecDense` of gonum: length and entries. -/
structure VecDense (α : Type) where
  n : Nat
  AtVec : Nat → α

section Gonum

variable {α : Type} [LinearOrderedField α]

def ErrShape : Failure := Failure.panic "mat: dimension mismatch"

def ErrZeroLength : Failure := Failure.panic "mat: zero length in matrix dimension"

def ErrColAccess : Failure := Failure.panic "mat: column index out of range"

def ErrIndex : Failure := Failure.panic "index out of range"

def ErrNilDeref : Failure := Failure.panic "invalid memory address or nil pointer dereference"

/-- The zero value of `mat.Dense`. -/
def Dense.empty : Dense α := ⟨0, 0, fun _ _ => 0⟩

/-- The zero value of `mat.VecDense`. -/
def VecDense.empty : VecDense α := ⟨0, fun _ => 0⟩

/-- `Dense.Dims`. -/
def Dense.Dims (M : Dense α) : Nat × Nat := (M.rows, M.cols)

/-- `Dense.IsEmpty`: the stride (the column count) is zero. -/
def Dense.IsEmpty (M : Dense α) : Bool := M.cols == 0

/-- `VecDense.IsEmpty`. -/
def VecDense.IsEmpty (v : VecDense α) : Bool := v.n == 0

/-- `mat.NewDense(r, c, data)`: panics on a zero dimension and, when `data`
is given, on `len(data) != r*c`; with `nil` data the matrix is zero. The
backing slice is row-major. -/
def NewDense (r c : Nat) (data : Option (List α)) : Except Failure (Dense α) :=
  if r = 0 ∨ c = 0 then .error ErrZeroLength
  else match data with
    | none => .ok ⟨r, c, fun _ _ => 0⟩
    | some d =>
      if d.length ≠ r * c then .error ErrShape
      else .ok ⟨r, c, fun i j => d.getD (i * c + j) 0⟩

/-- `mat.NewVecDense(n, data)`. -/
def NewVecDense (n : Nat) (data : Option (List α)) : Except Failure (VecDense α) :=
  if n = 0 then .error ErrZeroLength
  else match data with
    | none => .ok ⟨n, fun _ => 0⟩
    | some d =>
      if d.length ≠ n then .error ErrShape
      else .ok ⟨n, fun i => d.getD i 0⟩

/-- The receiver check shared by the arithmetic methods of `mat.Dense`
(`reuseAsNonZeroed`): an empty receiver is allocated, a non-empty one must
already have the shape of the result. -/
def Dense.reuseAsNonZeroed (recv : Dense α) (r c : Nat) : Except Failure Unit :=
  if r = 0 ∨ c = 0 then .error ErrZeroLength
  else if recv.IsEmpty then .ok ()
  else if r ≠ recv.rows ∨ c ≠ recv.cols then .error ErrShape
  else .ok ()

/-- The receiver check of the methods of `mat.VecDense`. -/
def VecDense.reuseAsNonZeroed (recv : VecDense α) (r : Nat) : Except Failure Unit :=
  if r = 0 then .error ErrZeroLength
  else if recv.IsEmpty then .ok ()
  else if r ≠ recv.n then .error ErrShape
  else .ok ()

/-- `recv.Set(i, j, v)`. -/
def Dense.Set (recv : Dense α) (i : Nat) (j : Int) (v : α) : Except Failure (Dense α) :=
  if recv.rows ≤ i then .error (Failure.panic "mat: row index out of range")
  else if j < 0 ∨ (recv.cols : Int) ≤ j then .error ErrColAccess
  else .ok ⟨recv.rows, recv.cols, fun i' j' => if i' = i ∧ (j' : Int) = j then v else recv.At i' j'⟩

/-- `recv.Mul(a, b)`: the matrix product. -/
def Dense.Mul (recv a b : Dense α) : Except Failure (Dense α) :=
  if a.cols ≠ b.rows then .error ErrShape
  else match recv.reuseAsNonZeroed a.rows b.cols with
    | .error e => .error e
    | .ok _ => .ok ⟨a.rows, b.cols, fun i k => ∑ j in Finset.range a.cols, a.At i j * b.At j k⟩

/-- `recv.Sub(a, b)`: the entrywise difference. -/
def Dense.Sub (recv a b : Dense α) : Except Failure (Dense α) :=
  if a.rows ≠ b.rows ∨ a.cols ≠ b.cols then .error ErrShape
  else match recv.reuseAsNonZeroed a.rows a.cols with
    | .error e => .error e
    | .ok _ => .ok ⟨a.rows, a.cols, fun i k => a.At i k - b.At i k⟩

/-- `recv.Add(a, b)`: the entrywise sum. -/
def Dense.Add (recv a b : Dense α) : Except Failure (Dense α) :=
  if a.rows ≠ b.rows ∨ a.cols ≠ b.cols then .error ErrShape
  else match recv.reuseAsNonZeroed a.rows a.cols with
    | .error e => .error e
    | .ok _ => .ok ⟨a.rows, a.cols, fun i k => a.At i k + b.At i k⟩

/-- `recv.Scale(f, a)`. -/
def Dense.Scale (recv : Dense α) (f : α) (a : Dense α) : Except Failure (Dense α) :=
  match recv.reuseAsNonZeroed a.rows a.cols with
  | .error e => .error e
  | .ok _ => .ok ⟨a.rows, a.cols, fun i k => f * a.At i k⟩

/-- `recv.CloneFrom(a)`: an independent copy of `a`. -/
def Dense.CloneFrom (a : Dense α) : Dense α := ⟨a.rows, a.cols, a.At⟩

/-- `a.T()`: the transpose. -/
def Dense.T (a : Dense α) : Dense α := ⟨a.cols, a.rows, fun i j => a.At j i⟩

/-- `recv.ScaleVec(f, a)`. -/
def VecDense.ScaleVec (recv : VecDense α) (f : α) (a : VecDense α) : Except Failure (VecDense α) :=
  match recv.reuseAsNonZeroed a.n with
  | .error e => .error e
  | .ok _ => .ok ⟨a.n, fun k => f * a.AtVec k⟩

/-- `recv.SubVec(a, b)`. -/
def VecDense.SubVec (recv a b : VecDense α) : Except Failure (VecDense α) :=
  if a.n ≠ b.n then .error ErrShape
  else match recv.reuseAsNonZeroed a.n with
    | .error e => .error e
    | .ok _ => .ok ⟨a.n, fun k => a.AtVec k - b.AtVec k⟩

end Gonum

section Classifier

variable {α : Type} [LinearOrderedField α]

/-- The counting loop `for k := lo; k < hi; k++ { s = body k s }`, started in
state `init`. -/
def forLoop {σ : Type} (lo hi : Nat) (body : Nat → σ → σ) (init : σ) : σ :=
  (List.range' lo (hi - lo)).foldl (fun s k => body k s) init

/-- The struct `SoftmaxRegression`: `W` is `nFeatures × nClasses`, `B` has
length `nClasses`; both pointers are nil (`none`) until the first `Fit`. -/
structure SoftmaxRegression (α : Type) where
  W : Option (Dense α)
  B : Option (VecDense α)
  Lr : α
  NIter : Int
  RegLambda : α

/-- `oneHotDense(y, nSamples, nClasses)`: a zero matrix in which row `i` gets
a one in column `y[i]`. -/
def oneHotDense (y : List Int) (nSamples nClasses : Nat) : Except Failure (Dense α) :=
  forLoop 0 nSamples
    (fun i acc => acc.bind fun Y =>
      match y.get? i with
      | none => .error ErrIndex
      | some yi => Y.Set i yi 1)
    (NewDense nSamples nClasses none)

/-- Step 1 of the body of `softmaxRows`: the maximum of `row[0..c)`. -/
def softmaxRows.maxVal (row : Nat → α) (c : Nat) : α :=
  forLoop 1 c (fun k maxVal => if row k > maxVal then row k else maxVal) (row 0)

/-- Step 2 of the body of `softmaxRows`: `outRow[k] = exp(row[k] - maxVal)`
and the running sum of these values. -/
def softmaxRows.expSum (exp : α → α) (row : Nat → α) (c : Nat) (maxVal : α)
    (outRow : Nat → α) : (Nat → α) × α :=
  forLoop 0 c
    (fun k p =>
      let e := exp (row k - maxVal)
      (Function.update p.1 k e, p.2 + e))
    (outRow, 0)

/-- Step 3 of the body of `softmaxRows`: `outRow[k] /= sumExp`. -/
def softmaxRows.normalize (c : Nat) (sumExp : α) (outRow : Nat → α) : Nat → α :=
  forLoop 0 c (fun k o => Function.update o k (o k / sumExp)) outRow

/-- The body of the row loop of `softmaxRows`: the new contents of `outRow`. -/
def softmaxRows.row (exp : α → α) (row : Nat → α) (c : Nat) (outRow : Nat → α) : Nat → α :=
  let maxVal := softmaxRows.maxVal row c
  let p := softmaxRows.expSum exp row c maxVal outRow
  softmaxRows.normalize c p.2 p.1

/-- `softmaxRows(scores)`: the row-wise softmax with the row maximum
subtracted before exponentiation. -/
def softmaxRows (exp : α → α) (scores : Dense α) : Except Failure (Dense α) :=
  let r := scores.rows
  let c := scores.cols
  (NewDense r c none).bind fun out =>
    .ok ⟨r, c,
      forLoop 0 r
        (fun i outAt => Function.update outAt i (softmaxRows.row exp (scores.At i) c (outAt i)))
        out.At⟩

/-- `m.forward(X)`: `scores = X*W + b` (the bias added to every row) and
`probs = softmaxRows(scores)`. -/
def forward (exp : α → α) (m : SoftmaxRegression α) (X : Dense α) :
    Except Failure (Dense α × Dense α) :=
  match m.W with
  | none => .error ErrNilDeref
  | some W =>
    let nSamples := X.rows
    let nClasses := W.cols
    (NewDense nSamples nClasses none).bind fun scores =>
    (scores.Mul X W).bind fun scores =>
    match m.B with
    | none => .error ErrNilDeref
    | some B =>
      if B.n < nClasses then .error (Failure.panic "mat: row index out of range")
      else
        let scores : Dense α := ⟨scores.rows, scores.cols,
          forLoop 0 nSamples
            (fun i sAt => Function.update sAt i
              (forLoop 0 nClasses (fun k row => Function.update row k (row k + B.AtVec k)) (sAt i)))
            scores.At⟩
        (softmaxRows exp scores).bind fun probs => .ok (scores, probs)

/-- The largest value of Go's 64-bit `int`, `2^63 - 1`. -/
def maxInt64 : Int := 9223372036854775807

/-- The result of 64-bit integer arithmetic: the value in `[-2^63, 2^63)`
congruent to `x` modulo `2^64`. -/
def wrapInt64 (x : Int) : Int :=
  (x + 9223372036854775808) % 18446744073709551616 - 9223372036854775808

/-- The number of classes computed by `Fit`: the running maximum of `yi + 1`
from `0`, with `yi + 1` computed in 64 bits. It is `max(y) + 1` for
non-negative labels below `maxInt64`; at `yi = maxInt64` the sum wraps to
`-2^63` and the label is passed over. -/
def Fit.nClasses (y : List Int) : Int :=
  y.foldl
    (fun nClasses yi => if wrapInt64 (yi + 1) > nClasses then wrapInt64 (yi + 1) else nClasses)
    0

/-- The bias gradient of one iteration of `Fit`: the column sums of
`dScores`, accumulated row by row into `dbData`. -/
def Fit.dbData (dScores : Dense α) (nSamples nClasses : Nat) : Nat → α :=
  forLoop 0 nSamples
    (fun i dbData =>
      forLoop 0 nClasses (fun k dbData => Function.update dbData k (dbData k + dScores.At i k)) dbData)
    (fun _ => 0)

/-- The weight gradient of one iteration of `Fit`:
`dW = Xᵀ * dScores`, plus `RegLambda * W` when `RegLambda > 0`. -/
def Fit.dW (m : SoftmaxRegression α) (X dScores : Dense α) (nFeatures nClasses : Nat) :
    Except Failure (Dense α) :=
  let XT := Dense.CloneFrom X.T
  (NewDense nFeatures nClasses none).bind fun dW =>
  (dW.Mul XT dScores).bind fun dW =>
  if m.RegLambda > 0 then
    match m.W with
    | none => .error ErrNilDeref
    | some W =>
      let regW := Dense.CloneFrom W
      (regW.Scale m.RegLambda regW).bind fun regW =>
      dW.Add dW regW
  else .ok dW

/-- The gradients of one iteration of `Fit` (everything before the update):
`dScores = (probs - Y)/n`, then `dW` and `db`. -/
def Fit.gradients (exp : α → α) (m : SoftmaxRegression α) (X Y : Dense α)
    (nSamples nFeatures nClasses : Nat) : Except Failure (Dense α × VecDense α) :=
  (forward exp m X).bind fun fw =>
  let probs := fw.2
  (NewDense nSamples nClasses none).bind fun dScores =>
  (dScores.Sub probs Y).bind fun dScores =>
  (dScores.Scale (1 / (nSamples : α)) dScores).bind fun dScores =>
  (Fit.dW m X dScores nFeatures nClasses).bind fun dW =>
  let dbData := Fit.dbData dScores nSamples nClasses
  (NewVecDense nClasses (some ((List.range nClasses).map dbData))).bind fun db =>
  .ok (dW, db)

/-- One iteration of the loop of `Fit`: the gradients, then
`W = W - lr*dW` and `B = B - lr*db`, in this order. The state returned with
a failure is the state at the moment of the failure. -/
def Fit.iter (exp : α → α) (X Y : Dense α) (nSamples nFeatures nClasses : Nat)
    (m : SoftmaxRegression α) : SoftmaxRegression α × Except Failure Unit :=
  match Fit.gradients exp m X Y nSamples nFeatures nClasses with
  | .error e => (m, .error e)
  | .ok (dW, db) =>
    match Dense.empty.Scale m.Lr dW with
    | .error e => (m, .error e)
    | .ok scaledDW =>
      match m.W with
      | none => (m, .error ErrNilDeref)
      | some W =>
        match W.Sub W scaledDW with
        | .error e => (m, .error e)
        | .ok W1 =>
          let m1 := { m with W := some W1 }
          match VecDense.empty.ScaleVec m.Lr db with
          | .error e => (m1, .error e)
          | .ok scaledDB =>
            match m1.B with
            | none => (m1, .error ErrNilDeref)
            | some B =>
              match B.SubVec B scaledDB with
              | .error e => (m1, .error e)
              | .ok B1 => ({ m1 with B := some B1 }, .ok ())

/-- The loop `for iter := 0; iter < m.NIter; iter++` of `Fit`, as the number
of iterations still to run. -/
def Fit.loop (exp : α → α) (X Y : Dense α) (nSamples nFeatures nClasses : Nat) :
    Nat → SoftmaxRegression α → SoftmaxRegression α × Except Failure Unit
  | 0, m => (m, .ok ())
  | k + 1, m =>
    match Fit.iter exp X Y nSamples nFeatures nClasses m with
    | (m1, .error e) => (m1, .error e)
    | (m1, .ok _) => Fit.loop exp X Y nSamples nFeatures nClasses k m1

/-- The lazy initialisation of `W` in `Fit`: when `m.W` is nil it becomes
the `nFeatures × nClasses` matrix with entries `0.01 * rand.NormFloat64()`. -/
def Fit.initW (rnd : Nat → α) (m : SoftmaxRegression α) (nFeatures nClasses : Nat) :
    Except Failure (SoftmaxRegression α) :=
  match m.W with
  | some _ => .ok m
  | none =>
    let dataW := (List.range (nFeatures * nClasses)).map fun i => (1 / 100 : α) * rnd i
    (NewDense nFeatures nClasses (some dataW)).bind fun W => .ok { m with W := some W }

/-- The lazy initialisation of `B` in `Fit`: when `m.B` is nil it becomes the
zero vector of length `nClasses`. -/
def Fit.initB (m : SoftmaxRegression α) (nClasses : Nat) :
    Except Failure (SoftmaxRegression α) :=
  match m.B with
  | some _ => .ok m
  | none => (NewVecDense nClasses none).bind fun B => .ok { m with B := some B }

/-- The initialisation block of `Fit`: `W`, then `B`. The state returned
with a failure is the state at the moment of the failure. -/
def Fit.init (rnd : Nat → α) (m : SoftmaxRegression α) (nFeatures nClasses : Nat) :
    SoftmaxRegression α × Except Failure Unit :=
  match Fit.initW rnd m nFeatures nClasses with
  | .error e => (m, .error e)
  | .ok m1 =>
    match Fit.initB m1 nClasses with
    | .error e => (m1, .error e)
    | .ok m2 => (m2, .ok ())

/-- `m.Fit(X, y)`. The result is the model as the call leaves it and the way
the call ended. -/
def Fit (exp : α → α) (rnd : Nat → α) (m : SoftmaxRegression α) (X : Dense α) (y : List Int) :
    SoftmaxRegression α × Except Failure Unit :=
  let nSamples := X.Dims.1
  let nFeatures := X.Dims.2
  if nSamples = 0 then (m, .error (Failure.fatal "Fit: X vacío"))
  else if y.length ≠ nSamples then
    (m, .error (Failure.fatal "Fit: X y y con distinto número de muestras"))
  else
    let nClasses := (Fit.nClasses y).toNat
    match Fit.init rnd m nFeatures nClasses with
    | (m1, .error e) => (m1, .error e)
    | (m1, .ok _) =>
      match oneHotDense y nSamples nClasses with
      | .error e => (m1, .error e)
      | .ok Y => Fit.loop exp X Y nSamples nFeatures nClasses m.NIter.toNat m1

/-- `m.PredictProba(X)`. -/
def PredictProba (exp : α → α) (m : SoftmaxRegression α) (X : Dense α) :
    Except Failure (Dense α) :=
  if m.W.isNone ∨ m.B.isNone then .error (Failure.fatal "PredictProba: modelo no entrenado")
  else (forward exp m X).bind fun fw => .ok fw.2

/-- The body of the row loop of `Predict`: the index of the first maximum of
`row[0..nClasses)`, as the pair `(maxIdx, maxVal)` after the inner loop. -/
def Predict.argmax (row : Nat → α) (nClasses : Nat) : Nat × α :=
  forLoop 1 nClasses
    (fun k p => if row k > p.2 then (k, row k) else p)
    (0, row 0)

/-- `m.Predict(X)`. -/
def Predict (exp : α → α) (m : SoftmaxRegression α) (X : Dense α) : Except Failure (List Nat) :=
  (PredictProba exp m X).bind fun probs =>
  let nSamples := probs.Dims.1
  let nClasses := probs.Dims.2
  let yPred : Nat → Nat :=
    forLoop 0 nSamples
      (fun i yPred => Function.update yPred i (Predict.argmax (probs.At i) nClasses).1)
      (fun _ => 0)
  .ok ((List.range nSamples).map yPred)

/-- `m.Accuracy(X, y)`. -/
def Accuracy (exp : α → α) (m : SoftmaxRegression α) (X : Dense α) (y : List Int) :
    Except Failure α :=
  (Predict exp m X).bind fun yPred =>
  if yPred.length ≠ y.length then .error (Failure.fatal "Accuracy: tamaños distintos")
  else
    let correct : Nat :=
      forLoop 0 y.length
        (fun i correct => if ((yPred.getD i 0 : Nat) : Int) = y.getD i 0 then correct + 1 else correct)
        0
    .ok ((correct : α) / (y.length : α))

end Classifier

/-! ## The ingestion boundary (`clase5/backend/api.go`) -/

section Boundary

variable {α : Type} [LinearOrderedField α]

/-- `slice2DToDense(x)`: the table `x` as a matrix. The inner result is the
returned `error` value (an empty or irregular table), the outer one a
run-time panic of `mat.NewDense`. The `return` inside the loop is the error
state of the accumulator, which the remaining rounds leave as it is. -/
def slice2DToDense (x : List (List α)) : Except Failure (Except String (Dense α)) :=
  if x.length = 0 then .ok (.error "la matriz X no puede estar vacía")
  else
    let nSamples := x.length
    let nFeatures := (x.getD 0 []).length
    let data : Except String (List α) :=
      forLoop 0 nSamples
        (fun i acc => acc.bind fun data =>
          if (x.getD i []).length ≠ nFeatures then
            .error "todas las filas de X deben tener el mismo número de columnas"
          else .ok (data ++ x.getD i []))
        (.ok [])
    match data with
    | .error e => .ok (.error e)
    | .ok data => (NewDense nSamples nFeatures (some data)).bind fun M => .ok (.ok M)

/-- `denseTo2D(m)`: the rows of `m`, each copied into a fresh slice. -/
def denseTo2D (m : Dense α) : List (List α) :=
  let r := m.Dims.1
  let c := m.Dims.2
  let out : Nat → List α :=
    forLoop 0 r
      (fun i out => Function.update out i ((List.range c).map (m.At i)))
      (fun _ => [])
  (List.range r).map out

end Boundary

/-! ## Specification-level quantities

Closed forms, used to state what the loops above compute. -/

section Specification

variable {α : Type} [LinearOrderedField α]

/-- Entry `(i, k)` of `X*W + b`. -/
def scoresAt (W : Dense α) (B : VecDense α) (X : Dense α) (i k : Nat) : α :=
  (∑ j in Finset.range X.cols, X.At i j * W.At j k) + B.AtVec k

/-- The naive softmax of the first `c` entries of a row, at position `k`:
`exp(s[k]) / Σ_j exp(s[j])`. -/
def naiveSoftmax (exp : α → α) (row : Nat → α) (c k : Nat) : α :=
  exp (row k) / ∑ j in Finset.range c, exp (row j)

/-- The max-subtracting softmax of the first `c` entries of a row, at
position `k`, as `softmaxRows` computes it. -/
def stableSoftmax (exp : α → α) (row : Nat → α) (c k : Nat) : α :=
  exp (row k - softmaxRows.maxVal row c)
    / ∑ j in Finset.range c, exp (row j - softmaxRows.maxVal row c)

/-- The score matrix `s` with the constant `c i` added to every entry of
row `i`. -/
def shiftRows (scores : Dense α) (c : Nat → α) : Dense α :=
  ⟨scores.rows, scores.cols, fun i k => scores.At i k + c i⟩

/-- The number of positions `i < len(y)` at which the prediction equals the
ground truth. -/
def countCorrect (yPred : List Nat) (y : List Int) : Nat :=
  ((Finset.range y.length).filter fun i => ((yPred.getD i 0 : Nat) : Int) = y.getD i 0).card

end Specification

/-! ## Loops -/

section Loops

theorem forLoop_of_le {σ : Type} (lo hi : Nat) (body : Nat → σ → σ) (init : σ) (h : hi ≤ lo) :
    forLoop lo hi body init = init := by
  simp [forLoop, Nat.sub_eq_zero_of_le h]

theorem forLoop_succ {σ : Type} (lo hi : Nat) (body : Nat → σ → σ) (init : σ) (h : lo ≤ hi) :
    forLoop lo (hi + 1) body init = body hi (forLoop lo hi body init) := by
  unfold forLoop
  have e : hi + 1 - lo = (hi - lo) + 1 := by omega
  rw [e, List.range'_1_concat, List.foldl_append]
  simp
  congr 1
  omega

/-- A loop that rewrites slot `k` of an array in its `k`-th round, from the
old content of that slot alone. -/
theorem forLoop_update {β : Type} (g : Nat → β → β) (f0 : Nat → β) (n : Nat) :
    forLoop 0 n (fun k f => Function.update f k (g k (f k))) f0
      = fun k => if k < n then g k (f0 k) else f0 k := by
  induction n with
  | zero => simp [forLoop_of_le]
  | succ n ih =>
    rw [forLoop_succ _ _ _ _ (Nat.zero_le n), ih]
    funext k
    by_cases hk : k = n
    · subst hk; simp
    · rw [Function.update_noteq hk]
      have : (k < n + 1) = (k < n) := by
        apply propext; omega
      simp only [this]

end Loops

/-! ## The row softmax -/

section SoftmaxLemmas

variable {α : Type} [LinearOrderedField α]

theorem maxVal_succ (row : Nat → α) (c : Nat) (h : 1 ≤ c) :
    softmaxRows.maxVal row (c + 1)
      = if row c > softmaxRows.maxVal row c then row c else softmaxRows.maxVal row c := by
  unfold softmaxRows.maxVal
  rw [forLoop_succ _ _ _ _ h]

theorem maxVal_le_one (row : Nat → α) (c : Nat) (h : c ≤ 1) :
    softmaxRows.maxVal row c = row 0 := by
  unfold softmaxRows.maxVal
  exact forLoop_of_le _ _ _ _ h

/-- The row maximum commutes with adding a constant to the row. -/
theorem maxVal_shift (row : Nat → α) (d : α) (c : Nat) :
    softmaxRows.maxVal (fun k => row k + d) c = softmaxRows.maxVal row c + d := by
  induction c with
  | zero => simp [maxVal_le_one]
  | succ n ih =>
    rcases Nat.eq_zero_or_pos n with h0 | hpos
    · subst h0; simp [maxVal_le_one]
    · rw [maxVal_succ _ _ hpos, maxVal_succ _ _ hpos, ih]
      by_cases hlt : row n > softmaxRows.maxVal row n
      · have : row n + d > softmaxRows.maxVal row n + d := by linarith
        simp [hlt, this]
      · have : ¬ (row n + d > softmaxRows.maxVal row n + d) := by
          intro h; apply hlt; linarith
        simp [hlt, this]

theorem expSum_eq (exp : α → α) (row : Nat → α) (c : Nat) (mx : α) (o : Nat → α) :
    softmaxRows.expSum exp row c mx o
      = (fun k => if k < c then exp (row k - mx) else o k,
         ∑ k in Finset.range c, exp (row k - mx)) := by
  unfold softmaxRows.expSum
  induction c with
  | zero => simp [forLoop_of_le]
  | succ n ih =>
    rw [forLoop_succ _ _ _ _ (Nat.zero_le n), ih]
    simp only [Finset.sum_range_succ]
    congr 1
    funext k
    by_cases hk : k = n
    · subst hk; simp
    · rw [Function.update_noteq hk]
      have : (k < n + 1) = (k < n) := by
        apply propext; omega
      simp only [this]

theorem normalize_eq (c : Nat) (s : α) (o : Nat → α) :
    softmaxRows.normalize c s o = fun k => if k < c then o k / s else o k := by
  unfold softmaxRows.normalize
  exact forLoop_update (fun _ x => x / s) o c

/-- The content of one output row of `softmaxRows`. -/
theorem softmaxRows_row_eq (exp : α → α) (row : Nat → α) (c : Nat) (o : Nat → α) :
    softmaxRows.row exp row c o
      = fun k => if k < c then
          exp (row k - softmaxRows.maxVal row c)
            / ∑ j in Finset.range c, exp (row j - softmaxRows.maxVal row c)
        else o k := by
  unfold softmaxRows.row
  simp only [expSum_eq, normalize_eq]
  funext k
  by_cases hk : k < c <;> simp [hk]

theorem NewDense_nil {r c : Nat} (hr : 0 < r) (hc : 0 < c) :
    NewDense r c (none : Option (List α)) = .ok ⟨r, c, fun _ _ => 0⟩ := by
  have : ¬ (r = 0 ∨ c = 0) := by omega
  simp [NewDense, this]

/-- On a matrix with a row and a column `softmaxRows` returns, and the
result has this closed form. -/
theorem softmaxRows_ok (exp : α → α) (scores : Dense α) (hr : 0 < scores.rows)
    (hc : 0 < scores.cols) :
    softmaxRows exp scores = .ok ⟨scores.rows, scores.cols, fun i =>
      if i < scores.rows then
        (fun k => if k < scores.cols then stableSoftmax exp (scores.At i) scores.cols k else 0)
      else fun _ => 0⟩ := by
  unfold softmaxRows
  simp only [NewDense_nil hr hc, Except.bind]
  rw [forLoop_update (fun i old => softmaxRows.row exp (scores.At i) scores.cols old)]
  simp only [softmaxRows_row_eq, stableSoftmax]

theorem maxVal_congr (row row' : Nat → α) (c : Nat) (h0 : row 0 = row' 0)
    (h : ∀ k, k < c → row k = row' k) :
    softmaxRows.maxVal row c = softmaxRows.maxVal row' c := by
  induction c with
  | zero => simp [maxVal_le_one, h0]
  | succ n ih =>
    rcases Nat.eq_zero_or_pos n with hz | hpos
    · subst hz; simp [maxVal_le_one, h0]
    · rw [maxVal_succ _ _ hpos, maxVal_succ _ _ hpos,
        ih (fun k hk => h k (Nat.lt_succ_of_lt hk)), h n (Nat.lt_succ_self n)]

theorem stableSoftmax_congr (exp : α → α) (row row' : Nat → α) (c k : Nat) (hk : k < c)
    (h : ∀ j, j < c → row j = row' j) :
    stableSoftmax exp row c k = stableSoftmax exp row' c k := by
  have h0 : row 0 = row' 0 := h 0 (by omega)
  unfold stableSoftmax
  rw [maxVal_congr row row' c h0 h, h k hk]
  congr 1
  apply Finset.sum_congr rfl
  intro j hj
  rw [h j (Finset.mem_range.mp hj)]

/-- Entries of the result of `softmaxRows`, inside the matrix. -/
theorem softmaxRows_At (exp : α → α) (scores P : Dense α)
    (h : softmaxRows exp scores = .ok P) :
    P.rows = scores.rows ∧ P.cols = scores.cols ∧ 0 < scores.rows ∧ 0 < scores.cols ∧
    ∀ i k, i < scores.rows → k < scores.cols →
      P.At i k = stableSoftmax exp (scores.At i) scores.cols k := by
  by_cases hr : 0 < scores.rows
  · by_cases hc : 0 < scores.cols
    · rw [softmaxRows_ok exp scores hr hc] at h
      cases h
      refine ⟨rfl, rfl, hr, hc, ?_⟩
      intro i k hi hk
      simp [hi, hk]
    · exfalso
      have : scores.cols = 0 := by omega
      simp [softmaxRows, NewDense, this, Except.bind] at h
  · exfalso
    have : scores.rows = 0 := by omega
    simp [softmaxRows, NewDense, this, Except.bind] at h

end SoftmaxLemmas

/-! ## Real-number facts about the normalised exponentials -/

section RealSoftmax

theorem sumExp_pos (row : Nat → ℝ) (c : Nat) (mx : ℝ) (hc : 0 < c) :
    0 < ∑ j in Finset.range c, Real.exp (row j - mx) :=
  Finset.sum_pos (fun _ _ => Real.exp_pos _) (Finset.nonempty_range_iff.mpr (by omega))

theorem stableSoftmax_sum (row : Nat → ℝ) (c : Nat) (hc : 0 < c) :
    ∑ k in Finset.range c, stableSoftmax Real.exp row c k = 1 := by
  unfold stableSoftmax
  rw [← Finset.sum_div]
  exact div_self (ne_of_gt (sumExp_pos row c _ hc))

theorem stableSoftmax_nonneg (row : Nat → ℝ) (c k : Nat) (hc : 0 < c) :
    0 ≤ stableSoftmax Real.exp row c k :=
  div_nonneg (le_of_lt (Real.exp_pos _)) (le_of_lt (sumExp_pos row c _ hc))

theorem stableSoftmax_pos (row : Nat → ℝ) (c k : Nat) (hc : 0 < c) :
    0 < stableSoftmax Real.exp row c k :=
  div_pos (Real.exp_pos _) (sumExp_pos row c _ hc)

theorem stableSoftmax_le_one (row : Nat → ℝ) (c k : Nat) (hk : k < c) :
    stableSoftmax Real.exp row c k ≤ 1 := by
  unfold stableSoftmax
  rw [div_le_one (sumExp_pos row c _ (by omega))]
  exact Finset.single_le_sum (f := fun j => Real.exp (row j - softmaxRows.maxVal row c))
    (fun _ _ => le_of_lt (Real.exp_pos _)) (Finset.mem_range.mpr hk)

/-- Over the reals the max-subtracting softmax is the naive softmax. -/
theorem stableSoftmax_eq_naive (row : Nat → ℝ) (c k : Nat) :
    stableSoftmax Real.exp row c k = naiveSoftmax Real.exp row c k := by
  unfold stableSoftmax naiveSoftmax
  simp only [Real.exp_sub]
  rw [← Finset.sum_div]
  exact div_div_div_cancel_right₀ (ne_of_gt (Real.exp_pos _)) _ _

end RealSoftmax

/-! ## The matrix operations on well-shaped arguments -/

section GonumLemmas

theorem reuseAsNonZeroed_ok {α : Type} (recv : Dense α) {r c : Nat} (hr : 0 < r) (hc : 0 < c)
    (h : recv.cols = 0 ∨ (recv.rows = r ∧ recv.cols = c)) :
    recv.reuseAsNonZeroed r c = .ok () := by
  have h1 : ¬ (r = 0 ∨ c = 0) := by omega
  unfold Dense.reuseAsNonZeroed Dense.IsEmpty
  rcases h with h | ⟨h2, h3⟩
  · simp [h1, h]
  · have h4 : ¬ (r ≠ recv.rows ∨ c ≠ recv.cols) := by omega
    simp [h1, h4]

variable {α : Type} [LinearOrderedField α]

theorem Mul_ok (recv a b : Dense α) (hab : a.cols = b.rows) (hr : 0 < a.rows) (hc : 0 < b.cols)
    (h : recv.cols = 0 ∨ (recv.rows = a.rows ∧ recv.cols = b.cols)) :
    recv.Mul a b
      = .ok ⟨a.rows, b.cols, fun i k => ∑ j in Finset.range a.cols, a.At i j * b.At j k⟩ := by
  unfold Dense.Mul
  rw [reuseAsNonZeroed_ok recv hr hc h]
  simp [hab]

end GonumLemmas

/-! ## The forward pass -/

section ForwardLemmas

variable {α : Type} [LinearOrderedField α]

/-- The bias loop of `forward` adds `B[k]` to the entries inside the matrix. -/
theorem biasLoop_eq (B : VecDense α) (n K : Nat) (sAt : Nat → Nat → α) :
    forLoop 0 n
      (fun i sAt => Function.update sAt i
        (forLoop 0 K (fun k row => Function.update row k (row k + B.AtVec k)) (sAt i)))
      sAt
    = fun i => if i < n then (fun k => if k < K then sAt i k + B.AtVec k else sAt i k)
        else sAt i := by
  rw [forLoop_update
    (fun _ old => forLoop 0 K (fun k row => Function.update row k (row k + B.AtVec k)) old)]
  funext i
  by_cases hi : i < n
  · simp only [hi, if_true]
    rw [forLoop_update (fun k x => x + B.AtVec k)]
  · simp [hi]

/-- On a well-shaped model and input `forward` returns, and both results
have the closed forms of the specification. -/
theorem forward_ok (exp : α → α) (m : SoftmaxRegression α) (W : Dense α) (B : VecDense α)
    (X : Dense α) (hW : m.W = some W) (hB : m.B = some B) (hK : 0 < W.cols)
    (hBn : W.cols ≤ B.n) (hn : 0 < X.rows) (hd : X.cols = W.rows) :
    ∃ S P, forward exp m X = .ok (S, P) ∧
      S.rows = X.rows ∧ S.cols = W.cols ∧ P.rows = X.rows ∧ P.cols = W.cols ∧
      (∀ i k, i < X.rows → k < W.cols → S.At i k = scoresAt W B X i k) ∧
      (∀ i k, i < X.rows → k < W.cols →
        P.At i k = stableSoftmax exp (scoresAt W B X i) W.cols k) := by
  have hB2 : ¬ (B.n < W.cols) := by omega
  unfold forward
  simp only [hW, hB, NewDense_nil hn hK, Except.bind]
  rw [Mul_ok ⟨X.rows, W.cols, fun _ _ => 0⟩ X W hd hn hK (Or.inr ⟨rfl, rfl⟩)]
  simp only [hB2, if_false, biasLoop_eq]
  rw [softmaxRows_ok exp ⟨X.rows, W.cols, _⟩ hn hK]
  refine ⟨_, _, rfl, rfl, rfl, rfl, rfl, ?_, ?_⟩
  · intro i k hi hk
    simp [hi, hk, scoresAt]
  · intro i k hi hk
    simp only [hi, if_true, hk]
    apply stableSoftmax_congr exp _ _ _ _ hk
    intro j hj
    simp [hi, hj, scoresAt]

theorem PredictProba_ok (exp : α → α) (m : SoftmaxRegression α) (W : Dense α) (B : VecDense α)
    (X : Dense α) (hW : m.W = some W) (hB : m.B = some B) (hK : 0 < W.cols)
    (hBn : W.cols ≤ B.n) (hn : 0 < X.rows) (hd : X.cols = W.rows) :
    ∃ P, PredictProba exp m X = .ok P ∧ P.rows = X.rows ∧ P.cols = W.cols ∧
      (∀ i k, i < X.rows → k < W.cols →
        P.At i k = stableSoftmax exp (scoresAt W B X i) W.cols k) := by
  obtain ⟨S, P, hf, _, _, h3, h4, _, h6⟩ := forward_ok exp m W B X hW hB hK hBn hn hd
  refine ⟨P, ?_, h3, h4, h6⟩
  simp [PredictProba, hW, hB, hf, Except.bind]

end ForwardLemmas

/-! ## Probabilities: row sums, shift invariance, the naive softmax -/

section ProbabilityClaims

/-- C1. Over the reals, for an initialised model (`W` of shape `d × K` with
`K ≥ 1`, `B` of length `K`) and a feature matrix with `n ≥ 1` rows and `d`
columns, `PredictProba` returns an `n × K` matrix in which every row sums to
exactly `1` and every entry lies in `[0, 1]`. -/
theorem PredictProba_rows_stochastic (m : SoftmaxRegression ℝ) (W : Dense ℝ) (B : VecDense ℝ)
    (X : Dense ℝ) (hW : m.W = some W) (hB : m.B = some B) (hK : 1 ≤ W.cols)
    (hBn : B.n = W.cols) (hn : 1 ≤ X.rows) (hd : X.cols = W.rows) :
    ∃ P, PredictProba Real.exp m X = .ok P ∧ P.rows = X.rows ∧ P.cols = W.cols ∧
      ∀ i, i < X.rows →
        (∑ k in Finset.range W.cols, P.At i k = 1) ∧
        ∀ k, k < W.cols → 0 ≤ P.At i k ∧ P.At i k ≤ 1 := by
  obtain ⟨P, hP, h1, h2, h3⟩ :=
    PredictProba_ok Real.exp m W B X hW hB hK (le_of_eq hBn.symm) hn hd
  refine ⟨P, hP, h1, h2, ?_⟩
  intro i hi
  constructor
  · rw [Finset.sum_congr rfl (fun k hk => h3 i k hi (Finset.mem_range.mp hk))]
    exact stableSoftmax_sum _ _ hK
  · intro k hk
    rw [h3 i k hi hk]
    exact ⟨stableSoftmax_nonneg _ _ _ hK, stableSoftmax_le_one _ _ _ hk⟩

/-- Witness of C1: a model with one feature and two classes, all parameters
zero, on the one-row input `[1]`. -/
theorem PredictProba_rows_stochastic_witness :
    ∃ P, PredictProba Real.exp
        ⟨some ⟨1, 2, fun _ _ => 0⟩, some ⟨2, fun _ => 0⟩, 1, 3, 0⟩ ⟨1, 1, fun _ _ => 1⟩ = .ok P ∧
      P.rows = 1 ∧ P.cols = 2 ∧
      ∀ i, i < 1 →
        (∑ k in Finset.range 2, P.At i k = 1) ∧ ∀ k, k < 2 → 0 ≤ P.At i k ∧ P.At i k ≤ 1 :=
  PredictProba_rows_stochastic
    ⟨some ⟨1, 2, fun _ _ => 0⟩, some ⟨2, fun _ => 0⟩, 1, 3, 0⟩ ⟨1, 2, fun _ _ => 0⟩
    ⟨2, fun _ => 0⟩ ⟨1, 1, fun _ _ => 1⟩ rfl rfl (by decide) rfl (by decide) rfl

/-- C6. Adding a constant `c i` to every score of row `i` does not change
the output of `softmaxRows`: on a score matrix with at least one row and one
column both calls return, and they return the same matrix. This holds in
every ordered field and for every function `exp`, in particular for the real
numbers and the real exponential. -/
theorem softmaxRows_shift_invariant {α : Type} [LinearOrderedField α] (exp : α → α)
    (scores : Dense α) (c : Nat → α) (hr : 0 < scores.rows) (hc : 0 < scores.cols) :
    ∃ P, softmaxRows exp scores = .ok P ∧ softmaxRows exp (shiftRows scores c) = .ok P := by
  refine ⟨_, softmaxRows_ok exp scores hr hc, ?_⟩
  rw [softmaxRows_ok exp (shiftRows scores c) hr hc]
  simp only [shiftRows]
  congr 2
  funext i
  congr 1
  funext k
  congr 1
  unfold stableSoftmax
  rw [maxVal_shift]
  congr 1
  · congr 1; ring
  · apply Finset.sum_congr rfl
    intro j _
    congr 1; ring

/-- Witness of C6: the real scores `[[0, 1]]` shifted by `5`. -/
theorem softmaxRows_shift_invariant_witness :
    ∃ P, softmaxRows Real.exp ⟨1, 2, fun _ k => (k : ℝ)⟩ = .ok P ∧
      softmaxRows Real.exp (shiftRows ⟨1, 2, fun _ k => (k : ℝ)⟩ (fun _ => 5)) = .ok P :=
  softmaxRows_shift_invariant Real.exp ⟨1, 2, fun _ k => (k : ℝ)⟩ (fun _ => 5)
    (by decide) (by decide)

/-- C7. Over the reals, on a score matrix with at least one row and one
column, `softmaxRows` returns the naive softmax: entry `(i, k)` of the
result is `exp(s[i][k]) / Σ_j exp(s[i][j])`. -/
theorem softmaxRows_eq_naiveSoftmax (scores : Dense ℝ) (hr : 0 < scores.rows)
    (hc : 0 < scores.cols) :
    ∃ P, softmaxRows Real.exp scores = .ok P ∧ P.rows = scores.rows ∧ P.cols = scores.cols ∧
      ∀ i k, i < scores.rows → k < scores.cols →
        P.At i k = naiveSoftmax Real.exp (scores.At i) scores.cols k := by
  refine ⟨_, softmaxRows_ok Real.exp scores hr hc, rfl, rfl, ?_⟩
  intro i k hi hk
  simp only [hi, hk, if_true]
  exact stableSoftmax_eq_naive _ _ _

/-- Witness of C7: the real scores `[[0, 1]]`. -/
theorem softmaxRows_eq_naiveSoftmax_witness :
    ∃ P, softmaxRows Real.exp ⟨1, 2, fun _ k => (k : ℝ)⟩ = .ok P ∧ P.rows = 1 ∧ P.cols = 2 ∧
      ∀ i k, i < 1 → k < 2 →
        P.At i k = naiveSoftmax Real.exp (fun k => (k : ℝ)) 2 k :=
  softmaxRows_eq_naiveSoftmax ⟨1, 2, fun _ k => (k : ℝ)⟩ (by decide) (by decide)

end ProbabilityClaims

/-! ## Hard labels and accuracy -/

section PredictLemmas

variable {α : Type} [LinearOrderedField α]

theorem argmax_le_one (row : Nat → α) (c : Nat) (h : c ≤ 1) :
    Predict.argmax row c = (0, row 0) := by
  unfold Predict.argmax
  exact forLoop_of_le _ _ _ _ h

theorem argmax_succ (row : Nat → α) (c : Nat) (h : 1 ≤ c) :
    Predict.argmax row (c + 1)
      = if row c > (Predict.argmax row c).2 then (c, row c) else Predict.argmax row c := by
  unfold Predict.argmax
  rw [forLoop_succ _ _ _ _ h]

/-- The invariant of the inner loop of `Predict`: `maxIdx` is the first
position of the maximum of the entries seen so far and `maxVal` its value. -/
theorem argmax_spec (row : Nat → α) (c : Nat) (hc : 1 ≤ c) :
    (Predict.argmax row c).1 < c ∧
    (Predict.argmax row c).2 = row (Predict.argmax row c).1 ∧
    (∀ k, k < c → row k ≤ row (Predict.argmax row c).1) ∧
    (∀ k, k < (Predict.argmax row c).1 → row k < row (Predict.argmax row c).1) := by
  induction c with
  | zero => omega
  | succ n ih =>
    rcases Nat.eq_zero_or_pos n with hz | hpos
    · subst hz
      rw [argmax_le_one row 1 (le_refl 1)]
      refine ⟨by simp, rfl, ?_, ?_⟩
      · intro k hk
        have : k = 0 := by omega
        subst this; exact le_refl _
      · intro k hk
        simp at hk
    · obtain ⟨h1, h2, h3, h4⟩ := ih hpos
      rw [argmax_succ row n hpos]
      by_cases hgt : row n > (Predict.argmax row n).2
      · simp only [hgt, if_true]
        rw [h2] at hgt
        refine ⟨by omega, trivial, ?_, ?_⟩
        · intro k hk
          rcases Nat.lt_succ_iff_lt_or_eq.mp hk with hk1 | hk1
          · exact le_trans (h3 k hk1) (le_of_lt hgt)
          · subst hk1; exact le_refl _
        · intro k hk
          exact lt_of_le_of_lt (h3 k hk) hgt
      · simp only [hgt, if_false]
        rw [h2] at hgt
        refine ⟨by omega, h2, ?_, h4⟩
        intro k hk
        rcases Nat.lt_succ_iff_lt_or_eq.mp hk with hk1 | hk1
        · exact h3 k hk1
        · subst hk1; exact not_lt.mp hgt

/-- What `Predict` returns once `PredictProba` has returned. -/
theorem Predict_of_PredictProba (exp : α → α) (m : SoftmaxRegression α) (X P : Dense α)
    (hP : PredictProba exp m X = .ok P) :
    Predict exp m X
      = .ok ((List.range P.rows).map fun i => (Predict.argmax (P.At i) P.cols).1) := by
  unfold Predict
  simp only [hP, Except.bind, Dense.Dims]
  rw [forLoop_update (fun i _ => (Predict.argmax (P.At i) P.cols).1)]
  congr 1
  apply List.map_congr_left
  intro i hi
  simp [List.mem_range.mp hi]

theorem counting_loop (p : Nat → Prop) [DecidablePred p] (n : Nat) :
    forLoop 0 n (fun i correct => if p i then correct + 1 else correct) 0
      = ((Finset.range n).filter p).card := by
  induction n with
  | zero => simp [forLoop_of_le]
  | succ n ih =>
    rw [forLoop_succ _ _ _ _ (Nat.zero_le n), ih, Finset.range_succ, Finset.filter_insert]
    by_cases h : p n
    · simp [h]
    · simp [h]

/-- What `Accuracy` returns once `Predict` has returned a vector as long as
the ground truth. -/
theorem Accuracy_of_Predict (exp : α → α) (m : SoftmaxRegression α) (X : Dense α)
    (y : List Int) (yPred : List Nat) (hP : Predict exp m X = .ok yPred)
    (hlen : yPred.length = y.length) :
    Accuracy exp m X y = .ok ((countCorrect yPred y : α) / (y.length : α)) := by
  unfold Accuracy
  simp only [hP, Except.bind, hlen, ne_eq, not_true_eq_false, if_false]
  rw [counting_loop (fun i => ((yPred.getD i 0 : Nat) : Int) = y.getD i 0)]
  rfl

theorem getD_map_range (f : Nat → Nat) (n i : Nat) (hi : i < n) :
    ((List.range n).map f).getD i 0 = f i := by
  simp [List.getD_eq_getElem?_getD, List.getElem?_map, List.getElem?_range hi]

theorem countCorrect_le (yPred : List Nat) (y : List Int) : countCorrect yPred y ≤ y.length := by
  unfold countCorrect
  calc _ ≤ (Finset.range y.length).card := Finset.card_filter_le _ _
    _ = y.length := Finset.card_range _

theorem countCorrect_eq_length (yPred : List Nat) (y : List Int) :
    countCorrect yPred y = y.length ↔
      ∀ i, i < y.length → ((yPred.getD i 0 : Nat) : Int) = y.getD i 0 := by
  unfold countCorrect
  conv_lhs => rhs; rw [← Finset.card_range y.length]
  rw [Finset.card_filter_eq_iff]
  simp

theorem countCorrect_eq_zero (yPred : List Nat) (y : List Int) :
    countCorrect yPred y = 0 ↔
      ∀ i, i < y.length → ((yPred.getD i 0 : Nat) : Int) ≠ y.getD i 0 := by
  unfold countCorrect
  rw [Finset.card_eq_zero, Finset.filter_eq_empty_iff]
  simp

/-- On a well-shaped model and input `Predict` returns one label per row,
the first index of the maximum of the corresponding row of `PredictProba`. -/
theorem Predict_ok (exp : α → α) (m : SoftmaxRegression α) (W : Dense α)
    (B : VecDense α) (X : Dense α) (hW : m.W = some W) (hB : m.B = some B) (hK : 0 < W.cols)
    (hBn : W.cols ≤ B.n) (hn : 0 < X.rows) (hd : X.cols = W.rows) :
    ∃ P yPred, PredictProba exp m X = .ok P ∧ Predict exp m X = .ok yPred ∧
      yPred.length = X.rows ∧ P.rows = X.rows ∧ P.cols = W.cols ∧
      ∀ i, i < X.rows → yPred.getD i 0 = (Predict.argmax (P.At i) W.cols).1 := by
  obtain ⟨P, hP, h1, h2, _⟩ := PredictProba_ok exp m W B X hW hB hK hBn hn hd
  refine ⟨P, _, hP, Predict_of_PredictProba exp m X P hP, by simp [h1], h1, h2, ?_⟩
  intro i hi
  rw [getD_map_range _ _ _ (by omega), h2]

end PredictLemmas

section PredictClaims

variable {α : Type} [LinearOrderedField α]

/-- C3. For an initialised model (`W` of shape `d × K` with `K ≥ 1`, `B`
with at least `K` entries) and a feature matrix with at least one row and
`d` columns, `Predict` returns one label per row, and the label `k` of row
`i` is a class index whose probability is the maximum of row `i` of the
output of `PredictProba`, every smaller index holding a strictly smaller
value: ties go to the lowest class index. -/
theorem Predict_first_maximum (exp : α → α) (m : SoftmaxRegression α) (W : Dense α)
    (B : VecDense α) (X : Dense α) (hW : m.W = some W) (hB : m.B = some B) (hK : 1 ≤ W.cols)
    (hBn : W.cols ≤ B.n) (hn : 1 ≤ X.rows) (hd : X.cols = W.rows) :
    ∃ P yPred, PredictProba exp m X = .ok P ∧ Predict exp m X = .ok yPred ∧
      yPred.length = X.rows ∧
      ∀ i, i < X.rows →
        yPred.getD i 0 < W.cols ∧
        (∀ j, j < W.cols → P.At i j ≤ P.At i (yPred.getD i 0)) ∧
        (∀ j, j < yPred.getD i 0 → P.At i j < P.At i (yPred.getD i 0)) := by
  obtain ⟨P, yPred, hP, hPred, hlen, _, _, hy⟩ := Predict_ok exp m W B X hW hB hK hBn hn hd
  refine ⟨P, yPred, hP, hPred, hlen, ?_⟩
  intro i hi
  rw [hy i hi]
  obtain ⟨a1, _, a3, a4⟩ := argmax_spec (P.At i) W.cols hK
  exact ⟨a1, a3, a4⟩

/-- Witness of C3: two classes with equal scores on the one-row input `[1]`;
the tie goes to class `0`. -/
theorem Predict_first_maximum_witness :
    ∃ P yPred,
      PredictProba (fun x : ℚ => x)
        ⟨some ⟨1, 2, fun _ _ => 0⟩, some ⟨2, fun _ => 0⟩, 1, 3, 0⟩ ⟨1, 1, fun _ _ => 1⟩ = .ok P ∧
      Predict (fun x : ℚ => x)
        ⟨some ⟨1, 2, fun _ _ => 0⟩, some ⟨2, fun _ => 0⟩, 1, 3, 0⟩ ⟨1, 1, fun _ _ => 1⟩
        = .ok yPred ∧
      yPred.length = 1 ∧
      ∀ i, i < 1 →
        yPred.getD i 0 < 2 ∧
        (∀ j, j < 2 → P.At i j ≤ P.At i (yPred.getD i 0)) ∧
        (∀ j, j < yPred.getD i 0 → P.At i j < P.At i (yPred.getD i 0)) :=
  Predict_first_maximum (fun x : ℚ => x)
    ⟨some ⟨1, 2, fun _ _ => 0⟩, some ⟨2, fun _ => 0⟩, 1, 3, 0⟩ ⟨1, 2, fun _ _ => 0⟩
    ⟨2, fun _ => 0⟩ ⟨1, 1, fun _ _ => 1⟩ rfl rfl (by decide) (by decide) (by decide) rfl

/-- C8. For an initialised model, a feature matrix with `n ≥ 1` rows and a
ground-truth vector `y` of length `n`, `Accuracy` returns the number of
positions where the prediction equals the ground truth, divided by `n`; the
value lies in `[0, 1]`, it is `1` exactly when every prediction matches and
`0` exactly when none does. -/
theorem Accuracy_fraction_correct (exp : α → α) (m : SoftmaxRegression α) (W : Dense α)
    (B : VecDense α) (X : Dense α) (y : List Int) (hW : m.W = some W) (hB : m.B = some B)
    (hK : 1 ≤ W.cols) (hBn : W.cols ≤ B.n) (hn : 1 ≤ X.rows) (hd : X.cols = W.rows)
    (hy : y.length = X.rows) :
    ∃ yPred acc, Predict exp m X = .ok yPred ∧ Accuracy exp m X y = .ok acc ∧
      acc = (countCorrect yPred y : α) / (X.rows : α) ∧ 0 ≤ acc ∧ acc ≤ 1 ∧
      (acc = 1 ↔ ∀ i, i < X.rows → ((yPred.getD i 0 : Nat) : Int) = y.getD i 0) ∧
      (acc = 0 ↔ ∀ i, i < X.rows → ((yPred.getD i 0 : Nat) : Int) ≠ y.getD i 0) := by
  obtain ⟨P, yPred, _, hPred, hlen, _⟩ := Predict_ok exp m W B X hW hB hK hBn hn hd
  have hl : yPred.length = y.length := by omega
  have hpos : (0 : α) < (X.rows : α) := by exact_mod_cast hn
  have hne : (X.rows : α) ≠ 0 := ne_of_gt hpos
  have hle : (countCorrect yPred y : α) ≤ (X.rows : α) := by
    have := countCorrect_le yPred y
    rw [hy] at this
    exact_mod_cast this
  refine ⟨yPred, _, hPred, Accuracy_of_Predict exp m X y yPred hPred hl, by rw [hy], ?_, ?_, ?_, ?_⟩
  · rw [hy]; exact div_nonneg (Nat.cast_nonneg _) (le_of_lt hpos)
  · rw [hy, div_le_one hpos]; exact hle
  · rw [hy, div_eq_one_iff_eq hne, ← hy, Nat.cast_inj]
    exact countCorrect_eq_length yPred y
  · rw [hy, div_eq_zero_iff, ← hy]
    constructor
    · intro h
      rcases h with h | h
      · exact (countCorrect_eq_zero yPred y).mp (by exact_mod_cast h)
      · rw [hy] at h; exact absurd h hne
    · intro h
      left
      exact_mod_cast (countCorrect_eq_zero yPred y).mpr h

/-- Witness of C8: the two-class model with all parameters zero predicts
class `0` on the input `[1]`, and the ground truth is `[0]`. -/
theorem Accuracy_fraction_correct_witness :
    ∃ yPred acc,
      Predict (fun x : ℚ => x)
        ⟨some ⟨1, 2, fun _ _ => 0⟩, some ⟨2, fun _ => 0⟩, 1, 3, 0⟩ ⟨1, 1, fun _ _ => 1⟩
        = .ok yPred ∧
      Accuracy (fun x : ℚ => x)
        ⟨some ⟨1, 2, fun _ _ => 0⟩, some ⟨2, fun _ => 0⟩, 1, 3, 0⟩ ⟨1, 1, fun _ _ => 1⟩ [0]
        = .ok acc ∧
      acc = (countCorrect yPred [0] : ℚ) / ((1 : Nat) : ℚ) ∧ 0 ≤ acc ∧ acc ≤ 1 ∧
      (acc = 1 ↔ ∀ i, i < 1 → ((yPred.getD i 0 : Nat) : Int) = [(0 : Int)].getD i 0) ∧
      (acc = 0 ↔ ∀ i, i < 1 → ((yPred.getD i 0 : Nat) : Int) ≠ [(0 : Int)].getD i 0) :=
  Accuracy_fraction_correct (fun x : ℚ => x)
    ⟨some ⟨1, 2, fun _ _ => 0⟩, some ⟨2, fun _ => 0⟩, 1, 3, 0⟩ ⟨1, 2, fun _ _ => 0⟩
    ⟨2, fun _ => 0⟩ ⟨1, 1, fun _ _ => 1⟩ [0] rfl rfl (by decide) (by decide) (by decide) rfl rfl

end PredictClaims

/-! ## One iteration of `Fit` -/

section IterationLemmas

variable {α : Type} [LinearOrderedField α]

end IterationLemmas

/-! ## Initialisation and the whole of `Fit` -/

section FitLemmas

variable {α : Type} [LinearOrderedField α]

theorem init_trained (rnd : Nat → α) (m : SoftmaxRegression α) (W : Dense α) (B : VecDense α)
    (d K : Nat) (hW : m.W = some W) (hB : m.B = some B) :
    Fit.init rnd m d K = (m, .ok ()) := by
  simp only [Fit.init, Fit.initW, Fit.initB, hW, hB]

/-- When `forward` returns, the model is initialised and the shapes fit. -/
theorem forward_inv (exp : α → α) (m : SoftmaxRegression α) (X : Dense α) (r : Dense α × Dense α)
    (h : forward exp m X = .ok r) :
    ∃ W B, m.W = some W ∧ m.B = some B ∧ 0 < X.rows ∧ 0 < W.cols ∧ X.cols = W.rows ∧
      W.cols ≤ B.n := by
  unfold forward at h
  cases hW : m.W with
  | none => rw [hW] at h; simp at h
  | some W =>
    rw [hW] at h
    dsimp only at h
    by_cases hz : X.rows = 0 ∨ W.cols = 0
    · simp [NewDense, hz, Except.bind] at h
    · have hn : 0 < X.rows := by omega
      have hK : 0 < W.cols := by omega
      rw [NewDense_nil hn hK] at h
      simp only [Except.bind] at h
      by_cases hd : X.cols = W.rows
      · cases hB : m.B with
        | none =>
          rw [Mul_ok ⟨X.rows, W.cols, fun _ _ => 0⟩ X W hd hn hK (Or.inr ⟨rfl, rfl⟩), hB] at h
          simp at h
        | some B =>
          by_cases hb : B.n < W.cols
          · rw [Mul_ok ⟨X.rows, W.cols, fun _ _ => 0⟩ X W hd hn hK (Or.inr ⟨rfl, rfl⟩), hB] at h
            simp [hb] at h
          · exact ⟨W, B, rfl, rfl, hn, hK, hd, by omega⟩
      · simp [Dense.Mul, hd] at h

theorem PredictProba_inv (exp : α → α) (m : SoftmaxRegression α) (X P : Dense α)
    (h : PredictProba exp m X = .ok P) :
    ∃ W B, m.W = some W ∧ m.B = some B ∧ 0 < X.rows ∧ 0 < W.cols ∧ X.cols = W.rows ∧
      W.cols ≤ B.n := by
  unfold PredictProba at h
  by_cases hnil : m.W.isNone ∨ m.B.isNone
  · rw [if_pos hnil] at h; cases h
  · rw [if_neg hnil] at h
    cases hf : forward exp m X with
    | error e => rw [hf] at h; simp [Except.bind] at h
    | ok r => exact forward_inv exp m X r hf

/-- When `Predict` returns, the model is initialised and the shapes fit. -/
theorem Predict_inv (exp : α → α) (m : SoftmaxRegression α) (X : Dense α) (yPred : List Nat)
    (h : Predict exp m X = .ok yPred) :
    ∃ W B, m.W = some W ∧ m.B = some B ∧ 0 < X.rows ∧ 0 < W.cols ∧ X.cols = W.rows ∧
      W.cols ≤ B.n := by
  cases hP : PredictProba exp m X with
  | error e => simp [Predict, hP, Except.bind] at h
  | ok P => exact PredictProba_inv exp m X P hP

/-- Every label returned by `Predict` is a column index of `W`. -/
theorem Predict_lt_cols (exp : α → α) (m : SoftmaxRegression α) (W : Dense α) (X : Dense α)
    (yPred : List Nat) (hW : m.W = some W) (h : Predict exp m X = .ok yPred) :
    yPred.length = X.rows ∧ ∀ l, l ∈ yPred → l < W.cols := by
  obtain ⟨W1, B, hW1, hB, hn, hK, hd, hBn⟩ := Predict_inv exp m X yPred h
  rw [hW] at hW1
  cases hW1
  obtain ⟨P, yPred1, _, hPred, hlen, _, _, hy⟩ := Predict_ok exp m W B X hW hB hK hBn hn hd
  rw [h] at hPred
  cases hPred
  refine ⟨hlen, ?_⟩
  intro l hl
  obtain ⟨i, hi, rfl⟩ := List.getElem_of_mem hl
  have hi2 : i < X.rows := by omega
  have := hy i hi2
  rw [List.getD_eq_getElem?_getD, List.getElem?_eq_getElem hi] at this
  simp only [Option.getD_some] at this
  rw [this]
  exact (argmax_spec (P.At i) W.cols hK).1

end FitLemmas

/-! ## Rejected calls and the inferred class count -/

section FitClaims

variable {α : Type} [LinearOrderedField α]

/-- C4. `Fit` called with an empty `X` or with a label vector whose length
differs from the number of rows of `X` ends by `log.Fatal` and leaves the
model exactly as it was (`W`, `B` and the hyperparameters); `Accuracy`
called with a ground-truth vector whose length differs from the number of
rows of `X` (the number of predictions) fails, by its own `log.Fatal`
whenever `Predict` has returned. `Accuracy` only reads the model. -/
theorem Fit_Accuracy_reject_length_mismatch (exp : α → α) (rnd : Nat → α)
    (m : SoftmaxRegression α) (X : Dense α) (y : List Int) (X1 : Dense α) (y1 : List Int)
    (hF : X.rows = 0 ∨ y.length ≠ X.rows) (hA : y1.length ≠ X1.rows) :
    (∃ msg, Fit exp rnd m X y = (m, .error (Failure.fatal msg))) ∧
    (∃ e, Accuracy exp m X1 y1 = .error e) ∧
    (∀ yPred, Predict exp m X1 = .ok yPred →
      Accuracy exp m X1 y1 = .error (Failure.fatal "Accuracy: tamaños distintos")) := by
  have hacc : ∀ yPred, Predict exp m X1 = .ok yPred →
      Accuracy exp m X1 y1 = .error (Failure.fatal "Accuracy: tamaños distintos") := by
    intro yPred hP
    obtain ⟨W, B, hW, _⟩ := Predict_inv exp m X1 yPred hP
    obtain ⟨hlen, _⟩ := Predict_lt_cols exp m W X1 yPred hW hP
    have hne : yPred.length ≠ y1.length := by omega
    simp only [Accuracy, hP, Except.bind, hne, ne_eq, not_false_eq_true, if_true]
  refine ⟨?_, ?_, hacc⟩
  · unfold Fit
    by_cases h0 : X.rows = 0
    · exact ⟨"Fit: X vacío", by simp only [Dense.Dims, h0, if_true]⟩
    · have h1 : y.length ≠ X.rows := by
        rcases hF with h | h
        · exact absurd h h0
        · exact h
      exact ⟨"Fit: X y y con distinto número de muestras",
        by simp only [Dense.Dims, h0, if_false, h1, ne_eq, not_false_eq_true, if_true]⟩
  · cases hP : Predict exp m X1 with
    | error e => exact ⟨e, by simp only [Accuracy, hP, Except.bind]⟩
    | ok yPred => exact ⟨_, hacc yPred hP⟩

/-- Witness of C4: a trained one-feature, two-class model, `Fit` on one
sample with two labels and `Accuracy` on one sample with two labels. -/
theorem Fit_Accuracy_reject_length_mismatch_witness :
    (∃ msg, Fit (fun x : ℚ => x) (fun _ => 0)
        ⟨some ⟨1, 2, fun _ _ => 0⟩, some ⟨2, fun _ => 0⟩, 1, 3, 0⟩ ⟨1, 1, fun _ _ => 1⟩ [0, 1]
      = (⟨some ⟨1, 2, fun _ _ => 0⟩, some ⟨2, fun _ => 0⟩, 1, 3, 0⟩,
          .error (Failure.fatal msg))) ∧
    (∃ e, Accuracy (fun x : ℚ => x)
        ⟨some ⟨1, 2, fun _ _ => 0⟩, some ⟨2, fun _ => 0⟩, 1, 3, 0⟩ ⟨1, 1, fun _ _ => 1⟩ [0, 1]
      = .error e) ∧
    (∀ yPred, Predict (fun x : ℚ => x)
        ⟨some ⟨1, 2, fun _ _ => 0⟩, some ⟨2, fun _ => 0⟩, 1, 3, 0⟩ ⟨1, 1, fun _ _ => 1⟩
        = .ok yPred →
      Accuracy (fun x : ℚ => x)
        ⟨some ⟨1, 2, fun _ _ => 0⟩, some ⟨2, fun _ => 0⟩, 1, 3, 0⟩ ⟨1, 1, fun _ _ => 1⟩ [0, 1]
      = .error (Failure.fatal "Accuracy: tamaños distintos")) :=
  Fit_Accuracy_reject_length_mismatch (fun x : ℚ => x) (fun _ => 0)
    ⟨some ⟨1, 2, fun _ _ => 0⟩, some ⟨2, fun _ => 0⟩, 1, 3, 0⟩ ⟨1, 1, fun _ _ => 1⟩ [0, 1]
    ⟨1, 1, fun _ _ => 1⟩ [0, 1] (Or.inr (by decide)) (by decide)

end FitClaims

/-! ## The loop of `Fit` as an iterated gradient step -/

section StepLemmas

end StepLemmas

section StepClaims

end StepClaims

/-! ## Retraining with a different shape -/

section RetrainLemmas

variable {α : Type} [LinearOrderedField α]

end RetrainLemmas

section RetrainClaims

variable {α : Type} [LinearOrderedField α]

end RetrainClaims

/-! ## Classes without samples -/

section UnobservedLemmas

end UnobservedLemmas

section UnobservedClaims

end UnobservedClaims

/-! ## The sum of the bias entries -/

section BiasSumLemmas

end BiasSumLemmas

section BiasSumClaims

end BiasSumClaims

/-! ## The ingestion boundary -/

section BoundaryLemmas

theorem flatten_length_rect {β : Type} (x : List (List β)) (c : Nat)
    (h : ∀ row, row ∈ x → row.length = c) : x.flatten.length = x.length * c := by
  induction x with
  | nil => simp
  | cons r rs ih =>
    rw [List.flatten_cons, List.length_append, ih (fun row hr => h row (List.mem_cons_of_mem _ hr)),
      h r (List.mem_cons_self _ _), List.length_cons]
    ring

/-- In the row-major concatenation of a rectangular table with rows of
length `c`, position `i*c + j` holds entry `(i, j)`. -/
theorem flatten_getD_rect {β : Type} (d : β) (x : List (List β)) (c : Nat)
    (h : ∀ row, row ∈ x → row.length = c) :
    ∀ i j, i < x.length → j < c → x.flatten.getD (i * c + j) d = (x.getD i []).getD j d := by
  induction x with
  | nil => intro i j hi; simp at hi
  | cons r rs ih =>
    intro i j hi hj
    have hr : r.length = c := h r (List.mem_cons_self _ _)
    rw [List.flatten_cons]
    cases i with
    | zero =>
      simp only [Nat.zero_mul, Nat.zero_add, List.getD_cons_zero]
      rw [List.getD_append _ _ _ _ (by omega)]
    | succ i =>
      have hi2 : i < rs.length := by simpa using hi
      rw [List.getD_cons_succ, ← ih (fun row hrow => h row (List.mem_cons_of_mem _ hrow)) i j hi2 hj]
      rw [List.getD_append_right _ _ _ _ (by rw [hr]; nlinarith)]
      congr 1
      rw [hr, Nat.succ_mul]
      omega

theorem getD_eq_getElem_list {β : Type} (d : β) (l : List β) (i : Nat) (hi : i < l.length) :
    l.getD i d = l[i] := by
  rw [List.getD_eq_getElem?_getD, List.getElem?_eq_getElem hi]
  rfl

theorem rows_of_getD {β : Type} (x : List (List β)) (c : Nat)
    (h : ∀ i, i < x.length → (x.getD i []).length = c) :
    ∀ row, row ∈ x → row.length = c := by
  intro row hrow
  obtain ⟨i, hi, rfl⟩ := List.getElem_of_mem hrow
  rw [← getD_eq_getElem_list [] x i hi]
  exact h i hi

/-- While every row has the expected length the loop of `slice2DToDense`
appends the rows one after the other. -/
theorem slice_loop_ok {β : Type} (x : List (List β)) (c : Nat) (msg : String) (t : Nat)
    (ht : t ≤ x.length) (h : ∀ i, i < t → (x.getD i []).length = c) :
    forLoop 0 t
      (fun i (acc : Except String (List β)) => acc.bind fun data =>
        if (x.getD i []).length ≠ c then .error msg else .ok (data ++ x.getD i []))
      (.ok [])
    = .ok (x.take t).flatten := by
  induction t with
  | zero => simp [forLoop_of_le]
  | succ t ih =>
    have htl : t < x.length := by omega
    have hc : ¬ ((x.getD t []).length ≠ c) := by
      intro hne; exact hne (h t (Nat.lt_succ_self t))
    rw [forLoop_succ _ _ _ _ (Nat.zero_le t), ih (by omega) (fun i hi => h i (by omega))]
    simp only [Except.bind, hc, if_false]
    rw [List.take_succ, List.flatten_append, getD_eq_getElem_list [] x t htl,
      List.getElem?_eq_getElem htl]
    simp

/-- A row of unexpected length makes the loop of `slice2DToDense` end with
the error. -/
theorem slice_loop_err {β : Type} (x : List (List β)) (c : Nat) (msg : String) (t : Nat)
    (h : ∃ i, i < t ∧ (x.getD i []).length ≠ c) :
    ∃ e, forLoop 0 t
      (fun i (acc : Except String (List β)) => acc.bind fun data =>
        if (x.getD i []).length ≠ c then .error msg else .ok (data ++ x.getD i []))
      (.ok []) = .error e := by
  induction t with
  | zero =>
    obtain ⟨i, hi, _⟩ := h
    omega
  | succ t ih =>
    rw [forLoop_succ _ _ _ _ (Nat.zero_le t)]
    by_cases hprev : ∃ i, i < t ∧ (x.getD i []).length ≠ c
    · obtain ⟨e, he⟩ := ih hprev
      rw [he]
      exact ⟨e, rfl⟩
    · have hbad : (x.getD t []).length ≠ c := by
        obtain ⟨i, hi, hne⟩ := h
        by_cases hit : i = t
        · rw [← hit]; exact hne
        · exact absurd ⟨i, by omega, hne⟩ hprev
      generalize forLoop 0 t
        (fun i (acc : Except String (List β)) => acc.bind fun data =>
          if (x.getD i []).length ≠ c then .error msg else .ok (data ++ x.getD i []))
        (.ok []) = r
      cases r with
      | error e => exact ⟨e, rfl⟩
      | ok data => exact ⟨msg, by simp only [Except.bind, hbad, ne_eq, not_false_eq_true, if_true]⟩

end BoundaryLemmas

section BoundaryClaims

variable {α : Type} [LinearOrderedField α]

/-- C12. `slice2DToDense` returns an error for the empty table and for every
table `x1` in which some row's length differs from the length of the first
row, so no matrix is built from an irregular table; for every non-empty
rectangular table `x2` with at least one column it returns without error
the matrix with `len(x2)` rows and `len(x2[0])` columns whose entry `(i, j)`
is `x2[i][j]`, and `denseTo2D` applied to that matrix gives back `x2`. -/
theorem slice2DToDense_rectangular (x1 x2 : List (List α))
    (hirr : ∃ i, i < x1.length ∧ (x1.getD i []).length ≠ (x1.getD 0 []).length)
    (hne : x2 ≠ [])
    (hrect : ∀ i, i < x2.length → (x2.getD i []).length = (x2.getD 0 []).length)
    (hcol : 1 ≤ (x2.getD 0 []).length) :
    (∃ msg, slice2DToDense ([] : List (List α)) = .ok (.error msg)) ∧
    (∃ msg, slice2DToDense x1 = .ok (.error msg)) ∧
    (∃ M, slice2DToDense x2 = .ok (.ok M) ∧ M.rows = x2.length ∧
      M.cols = (x2.getD 0 []).length ∧
      (∀ i j, i < M.rows → j < M.cols → M.At i j = (x2.getD i []).getD j 0) ∧
      denseTo2D M = x2) := by
  refine ⟨⟨_, rfl⟩, ?_, ?_⟩
  · obtain ⟨i, hi, hbad⟩ := hirr
    have h0 : ¬ (x1.length = 0) := by omega
    obtain ⟨e, he⟩ := slice_loop_err x1 (x1.getD 0 []).length
      "todas las filas de X deben tener el mismo número de columnas" x1.length ⟨i, hi, hbad⟩
    exact ⟨e, by simp only [slice2DToDense, h0, if_false, he]⟩
  · have hlen : 0 < x2.length := List.length_pos.mpr hne
    have h0 : ¬ (x2.length = 0) := by omega
    have hrows := rows_of_getD x2 _ hrect
    have hdata := slice_loop_ok x2 (x2.getD 0 []).length
      "todas las filas de X deben tener el mismo número de columnas" x2.length (le_refl _) hrect
    rw [List.take_length] at hdata
    have hz : ¬ (x2.length = 0 ∨ (x2.getD 0 []).length = 0) := by omega
    have hl : ¬ (x2.flatten.length ≠ x2.length * (x2.getD 0 []).length) := by
      rw [flatten_length_rect x2 _ hrows]; simp
    refine ⟨⟨x2.length, (x2.getD 0 []).length,
      fun i j => x2.flatten.getD (i * (x2.getD 0 []).length + j) 0⟩, ?_, rfl, rfl, ?_, ?_⟩
    · simp only [slice2DToDense, h0, if_false, hdata]
      simp only [NewDense, hz, hl, if_false, Except.bind]
    · intro i j hi hj
      exact flatten_getD_rect 0 x2 _ hrows i j hi hj
    · unfold denseTo2D
      simp only [Dense.Dims]
      rw [forLoop_update (fun i _ => (List.range (x2.getD 0 []).length).map
        (fun j => x2.flatten.getD (i * (x2.getD 0 []).length + j) 0))]
      apply List.ext_getElem
      · simp
      · intro i h1 h2
        have hi : i < x2.length := h2
        simp only [List.getElem_map, List.getElem_range, hi, if_true]
        apply List.ext_getElem
        · rw [List.length_map, List.length_range, ← getD_eq_getElem_list [] x2 i hi]
          exact (hrect i hi).symm
        · intro j h3 h4
          have hj : j < (x2.getD 0 []).length := by simpa using h3
          simp only [List.getElem_map, List.getElem_range]
          rw [flatten_getD_rect 0 x2 _ hrows i j hi hj, getD_eq_getElem_list [] x2 i hi,
            getD_eq_getElem_list 0 _ j h4]

/-- Witness of C12: the irregular table `[[1, 2], [3]]` and the rectangular
table `[[1, 2], [3, 4]]`, over the rationals. -/
theorem slice2DToDense_rectangular_witness :
    (∃ msg, slice2DToDense ([] : List (List ℚ)) = .ok (.error msg)) ∧
    (∃ msg, slice2DToDense ([[1, 2], [3]] : List (List ℚ)) = .ok (.error msg)) ∧
    (∃ M, slice2DToDense ([[1, 2], [3, 4]] : List (List ℚ)) = .ok (.ok M) ∧ M.rows = 2 ∧
      M.cols = 2 ∧
      (∀ i j, i < M.rows → j < M.cols →
        M.At i j = (([[1, 2], [3, 4]] : List (List ℚ)).getD i []).getD j 0) ∧
      denseTo2D M = [[1, 2], [3, 4]]) :=
  slice2DToDense_rectangular [[1, 2], [3]] [[1, 2], [3, 4]] ⟨1, by decide, by decide⟩
    (by decide) (by decide) (by decide)

end BoundaryClaims

/-! ## The effect of the regularisation strength on the norm -/

section RegularizationLemmas

end RegularizationLemmas

section RegularizationClaims

end RegularizationClaims

/-! ## The class count at the largest `int` -/

section OverflowLemmas

variable {α : Type} [LinearOrderedField α]

/-- At the label `maxInt64` the sum `yi + 1` wraps to `-2^63`, so the class
count stays `0`. -/
theorem nClasses_maxInt64 : Fit.nClasses [maxInt64] = 0 := by
  decide

/-- `Fit` on one sample with the label `maxInt64`: the class count is `0`, so
the first allocation with `nClasses` columns (of `W`, of `B`, or of the
one-hot matrix) panics on the zero dimension, and the model is left as it
was. -/
theorem Fit_label_maxInt64 (exp : α → α) (rnd : Nat → α) (m : SoftmaxRegression α)
    (X : Dense α) (hn : X.rows = 1) :
    Fit exp rnd m X [maxInt64] = (m, .error ErrZeroLength) := by
  have h1 : ¬ (X.rows = 0) := by omega
  have h2 : ¬ (([maxInt64] : List Int).length ≠ X.rows) := by simp [hn]
  have hK : (Fit.nClasses [maxInt64]).toNat = 0 := by rw [nClasses_maxInt64]; rfl
  unfold Fit
  dsimp only [Dense.Dims]
  rw [if_neg h1, if_neg h2, hK]
  cases hW : m.W with
  | none =>
    have e : Fit.init rnd m X.cols 0 = (m, .error ErrZeroLength) := by
      simp [Fit.init, Fit.initW, hW, NewDense, Except.bind]
    rw [e]
  | some W =>
    cases hB : m.B with
    | none =>
      have e : Fit.init rnd m X.cols 0 = (m, .error ErrZeroLength) := by
        simp [Fit.init, Fit.initW, Fit.initB, hW, hB, NewVecDense, Except.bind]
      rw [e]
    | some B =>
      rw [init_trained rnd m W B _ _ hW hB]
      have e : (oneHotDense [maxInt64] X.rows 0 : Except Failure (Dense α))
          = .error ErrZeroLength := by
        unfold oneHotDense
        rw [hn, forLoop_succ _ _ _ _ (le_refl 0), forLoop_of_le _ _ _ _ (le_refl 0)]
        simp [NewDense, Except.bind]
      rw [e]

end OverflowLemmas

end Chivo
